import Mathlib

/-!
Verification development for a single-threaded cooperative fiber scheduler
(`src/main.cpp`): a `StackPool` recycling fixed-size stack blocks, a
`FiberScheduler` with a FIFO ready queue of execution contexts, free
functions dispatching to a process-wide instance, and a trampoline
(`run_fiber`) that runs a fiber body to completion and releases its stack.

Shallow embedding notes.
* A C++ stack block (a `void *` from `calloc(1, STACK_SIZE)`) is modelled
  as a `StackBlock`: a distinguishing `id` (the address) plus its byte
  contents `mem : Nat → Nat`.  `StackPool.alloc` / `StackPool.free`
  mirror `main.cpp` lines 63-75: `alloc` pops the back of the free list
  (most recently freed) or otherwise calloc-s a fresh zero-filled block;
  `free` pushes to the back of the free list.
* A fiber body (a C++ `std::function<void()>` closing over shared
  variables) is modelled as a deep program `FiberProg σ` over the shared
  state `σ`: it can mutate the shared state (`act`), call the free
  function `yield` (`yield`), call the free function `schedule` (`schedule`),
  or return (`done`).
* A queue entry (a C++ `Context {eip, esp}`) is a `QueuedFiber`: the
  continuation the saved instruction pointer denotes (either a
  not-yet-started body staged behind the trampoline, or the rest of a
  body after its last `yield`) together with the stack block the fiber
  owns.  The context-switch assembly transfers control between the run
  loop and fibers; in the embedding this transfer is direct recursion:
  `run_fiber` executes one activation of a fiber until it yields or
  completes, exactly as control round-trips through `switch_context`.
* `FiberScheduler.run` (`while (!queue.empty()) run_one();`) is given
  explicit fuel counting `run_one` activations; `none` means the drain
  has not finished within the given number of activations.  It also
  returns the activation trace: the sequence of queue entries popped by
  `run_one`.
-/

/-- Fixed stack block size, `StackPool::STACK_SIZE = 1024 * 1024`. -/
def STACK_SIZE : Nat := 1024 * 1024

/-- A raw stack memory block: `id` stands for the block's address and
`mem o` for the byte stored at offset `o` inside the block. -/
structure StackBlock where
  id : Nat
  mem : Nat → Nat

/-- The recycling stack allocator `StackPool`: `stacks'` is the free list
(`std::vector<void *>`, back = most recently freed) and `nextId` models
the supply of fresh addresses the underlying allocator hands out. -/
structure StackPool where
  stacks' : List StackBlock
  nextId : Nat

namespace StackPool

/-- Pool with an empty free list. -/
def empty : StackPool := ⟨[], 0⟩

/-- StackPool::alloc (main.cpp lines 63-71): if the free list is
non-empty, return its back element and pop it; otherwise return a fresh
`calloc`-ed block, zero-filled. -/
def alloc (p : StackPool) : StackBlock × StackPool :=
  match p.stacks'.getLast? with
  | some b => (b, ⟨p.stacks'.dropLast, p.nextId⟩)
  | none => (⟨p.nextId, fun _ => 0⟩, ⟨p.stacks', p.nextId + 1⟩)

/-- StackPool::free (main.cpp lines 73-75): push the block onto the back
of the free list. -/
def free (p : StackPool) (stack : StackBlock) : StackPool :=
  ⟨p.stacks' ++ [stack], p.nextId⟩

end StackPool

/-- A fiber body as a program over the shared state `σ`: it can update
the shared state, call the scheduler's `yield`, call `schedule` on a new
body, or finish. -/
inductive FiberProg (σ : Type) where
  | done : FiberProg σ
  | act : (σ → σ) → FiberProg σ → FiberProg σ
  | yield : FiberProg σ → FiberProg σ
  | schedule : FiberProg σ → FiberProg σ → FiberProg σ

/-- A ready-queue entry (a saved `Context`): the continuation of the
fiber together with the stack block it owns. -/
structure QueuedFiber (σ : Type) where
  prog : FiberProg σ
  stack : StackBlock

/-- State of the cooperative `FiberScheduler` together with the global
`stack_pool` and the shared variables the fiber closures capture. -/
structure SchedState (σ : Type) where
  queue : List (QueuedFiber σ)
  pool : StackPool
  shared : σ

namespace FiberScheduler

/-- A scheduler with an empty ready queue, a fresh pool and shared state
`s` (the state right after `init_global_scheduler`). -/
def init (s : σ) : SchedState σ := ⟨[], StackPool.empty, s⟩

/-- FiberScheduler::schedule (main.cpp lines 154-173): claim a stack
block from the pool, build the initial context (trampoline entry plus
the prepared stack top) and push it onto the back of the ready queue.
The body is not invoked. -/
def schedule (st : SchedState σ) (fiber : FiberProg σ) : SchedState σ :=
  let a := st.pool.alloc
  ⟨st.queue ++ [⟨fiber, a.1⟩], a.2, st.shared⟩

/-- One activation of a fiber: execute its continuation until it yields
or completes, threading the ready queue behind it, the pool and the
shared state.  Mirrors the control round-trip through `switch_context`:
`yield` (lines 175-178) pushes the caller's continuation onto the back
of the queue and hands control back; a nested `schedule` appends a new
context; the trampoline `run_fiber` (lines 140-147) destroys the
on-stack `FiberKeeper` on completion, returning the stack to the pool,
then switches back to the run loop. -/
def run_fiber : FiberProg σ → StackBlock → List (QueuedFiber σ) →
    StackPool → σ → List (QueuedFiber σ) × StackPool × σ
  | .done, stack, q, pool, s => (q, pool.free stack, s)
  | .act f k, stack, q, pool, s => run_fiber k stack q pool (f s)
  | .yield k, stack, q, pool, s => (q ++ [⟨k, stack⟩], pool, s)
  | .schedule w k, stack, q, pool, s =>
      let a := pool.alloc
      run_fiber k stack (q ++ [⟨w, a.1⟩]) a.2 s

/-- FiberScheduler::run_one (main.cpp lines 107-114) followed by the
fiber's activation: pop the front context and switch into it. -/
def run_one (st : SchedState σ) (c : QueuedFiber σ) (rest : List (QueuedFiber σ)) :
    SchedState σ :=
  let r := run_fiber c.prog c.stack rest st.pool st.shared
  ⟨r.1, r.2.1, r.2.2⟩

/-- FiberScheduler::run (main.cpp lines 180-184):
`while (!queue.empty()) run_one();`.  `fuel` bounds the number of
`run_one` activations; `none` means the drain did not finish within
`fuel` activations.  On success the activation trace (the sequence of
popped contexts) is returned along with the final state. -/
def run : Nat → SchedState σ → Option (List (QueuedFiber σ) × SchedState σ)
  | fuel, st =>
    match st.queue with
    | [] => some ([], st)
    | c :: rest =>
      match fuel with
      | 0 => none
      | fuel + 1 =>
        match run fuel (run_one st c rest) with
        | none => none
        | some p => some (c :: p.1, p.2)

end FiberScheduler

/-- Outcome of calling one of the free functions that dispatch to the
process-wide `global_scheduler`: normal return, a thrown
`std::runtime_error` with its message, undefined behaviour (dereferencing
the empty `unique_ptr`), or `spin` when a drain does not finish within
the given fuel (the C++ loop simply has not returned yet). -/
inductive CallResult (α : Type) where
  | ok : α → CallResult α
  | thrown : String → CallResult α
  | ub : CallResult α
  | spin : CallResult α

/-- Free function `schedule` (main.cpp lines 24-29): throws
"Global scheduler is empty" when no instance is installed, otherwise
dispatches to `FiberScheduler::schedule` on the installed instance. -/
def global_schedule (g : Option (SchedState σ)) (fiber : FiberProg σ) :
    CallResult (Option (SchedState σ)) :=
  match g with
  | none => .thrown "Global scheduler is empty"
  | some st => .ok (some (FiberScheduler.schedule st fiber))

/-- Free function `yield` (main.cpp lines 31-36): throws
"Global scheduler is empty" when no instance is installed, otherwise the
call is dispatched to the installed instance.  A dispatched `yield`
executes inside a running fiber, whose semantics the embedding carries in
`FiberScheduler.run_fiber`; the free function itself only performs the
check and the virtual call, so the installed case returns `ok`. -/
def global_yield (g : Option (SchedState σ)) : CallResult Unit :=
  match g with
  | none => .thrown "Global scheduler is empty"
  | some _ => .ok ()

/-- run_global_scheduler (main.cpp lines 196-198): `global_scheduler->run()`
with no null check, so with no installed instance the empty `unique_ptr`
is dereferenced: undefined behaviour, not a thrown error. -/
def run_global_scheduler (fuel : Nat) (g : Option (SchedState σ)) :
    CallResult (List (QueuedFiber σ) × SchedState σ) :=
  match g with
  | none => .ub
  | some st =>
    match FiberScheduler.run fuel st with
    | none => .spin
    | some p => .ok p

/-- FiberScheduler::FiberKeeper (main.cpp lines 116-138): owns the fiber
body and (when non-null) a stack block.  `none` in `stack` models the
null pointer of a moved-from or zeroed-out keeper; `none` in `fiber`
models an emptied `std::function`. -/
structure FiberKeeper (σ : Type) where
  fiber : Option (FiberProg σ)
  stack : Option StackBlock

namespace FiberKeeper

/-- FiberKeeper's constructor (lines 120-122): takes the body and claims
a stack block from the pool. -/
def make (fiber : FiberProg σ) (pool : StackPool) : FiberKeeper σ × StackPool :=
  let a := pool.alloc
  (⟨some fiber, some a.1⟩, a.2)

/-- FiberKeeper's move constructor (lines 124-127): the new keeper takes
the body and the stack; the moved-from keeper's stack is set to null.
Returns (new keeper, moved-from keeper). -/
def move (other : FiberKeeper σ) : FiberKeeper σ × FiberKeeper σ :=
  (⟨other.fiber, other.stack⟩, ⟨none, none⟩)

/-- Effect of `memset(&fk, 0, sizeof(fk))` (line 170): every byte of the
keeper is zeroed, so its stack pointer becomes null and its
`std::function` becomes empty. -/
def memset_zero (_ : FiberKeeper σ) : FiberKeeper σ := ⟨none, none⟩

/-- FiberKeeper's destructor (lines 133-137): returns the stack to the
pool only when the stack pointer is non-null. -/
def dtor (fk : FiberKeeper σ) (pool : StackPool) : StackPool :=
  match fk.stack with
  | some stack => pool.free stack
  | none => pool

end FiberKeeper

/-! Instrumentation used to state "every scheduled body runs exactly
once": for bodies over a shared counter whose every action is an
increment, the number of increments performed by a drain counts the
bodies' executions. -/

namespace FiberScheduler

/-- Number of shared-state actions a body performs, its
nested-scheduled bodies included. -/
def acts : FiberProg σ → Nat
  | .done => 0
  | .act _ k => 1 + acts k
  | .yield k => acts k
  | .schedule w k => acts w + acts k

/-- Number of `run_one` activations a body costs over its whole life:
one for reaching each `yield` plus one for reaching `done`, its
nested-scheduled bodies included. -/
def steps : FiberProg σ → Nat
  | .done => 1
  | .act _ k => steps k
  | .yield k => 1 + steps k
  | .schedule w k => steps w + steps k

/-- Total activation cost of a ready queue. -/
def stepsQ (q : List (QueuedFiber σ)) : Nat := (q.map fun c => steps c.prog).sum

/-- Total number of pending shared-state actions in a ready queue. -/
def actsQ (q : List (QueuedFiber σ)) : Nat := (q.map fun c => acts c.prog).sum

/-- Bodies over a shared `Nat` counter whose every action increments it
by one. -/
inductive OnlyInc : FiberProg Nat → Prop where
  | done : OnlyInc .done
  | act : ∀ {k}, OnlyInc k → OnlyInc (.act Nat.succ k)
  | yield : ∀ {k}, OnlyInc k → OnlyInc (.yield k)
  | schedule : ∀ {w k}, OnlyInc w → OnlyInc k → OnlyInc (.schedule w k)

end FiberScheduler

/-! Concrete programs mirroring the example fibers in `main.cpp`. -/

/-- A body that increments the shared counter once and finishes. -/
def inc_body : FiberProg Nat := .act Nat.succ .done

/-- Nested-scheduling chain of depth `d` (test_recursive): at depth 0
the body increments the counter; at depth `d + 1` the body schedules the
depth-`d` chain and finishes. -/
def chain : Nat → FiberProg Nat
  | 0 => inc_body
  | d + 1 => .schedule (chain d) .done

/-- Body of test_yield_one's fiber with `i` loop iterations left: each
iteration increments the shared counter and yields. -/
def yield_one_body : Nat → FiberProg Nat
  | 0 => .done
  | i + 1 => .act Nat.succ (.yield (yield_one_body i))

/-- Shared variables of test_yield_many: the counter `x`, the
last-fiber-to-run marker `cur_fiber` (initially `-1`), and `ok`
accumulating the test's per-step assertion `cur_fiber != fiber_id`. -/
structure YState where
  x : Nat
  cur_fiber : Int
  ok : Bool
deriving DecidableEq

/-- Body of test_yield_many's fiber `fid` with `i` loop iterations left:
each iteration asserts the previous step was run by a different fiber,
records itself as the last fiber to run, increments the counter, and
yields. -/
def yield_many_body (fid : Int) : Nat → FiberProg YState
  | 0 => .done
  | i + 1 =>
    .act (fun s => ⟨s.x + 1, fid, s.ok && (s.cur_fiber != fid)⟩)
      (.yield (yield_many_body fid i))

/-- Initial state of test_yield_many: fibers 1, 2, 3 scheduled in that
order, each looping `ITERS = 10` times. -/
def yield_many_init : SchedState YState :=
  FiberScheduler.schedule
    (FiberScheduler.schedule
      (FiberScheduler.schedule (FiberScheduler.init ⟨0, -1, true⟩)
        (yield_many_body 1 10))
      (yield_many_body 2 10))
    (yield_many_body 3 10)

/-! Stack-block ownership: the parties that can own a block are the
pool's free list and the queued (or running) fibers.  A state is
well-formed when every block address is owned exactly once and every
owned address was really handed out by the allocator. -/

/-- Addresses owned by the pool's free list. -/
def pool_ids (pool : StackPool) : List Nat := pool.stacks'.map StackBlock.id

/-- Addresses owned by the fibers of a ready queue. -/
def queue_ids (q : List (QueuedFiber σ)) : List Nat := q.map fun c => c.stack.id

/-- Ownership ledger `l` is sound for allocator frontier `n`: no address
is owned by two parties and every owned address is below the frontier. -/
def PoolInv (l : List Nat) (n : Nat) : Prop := l.Nodup ∧ ∀ i ∈ l, i < n

/-- A scheduler state in which every stack block is owned by exactly one
party: the free list and the ready queue share no block and repeat no
block. -/
def SchedInv (st : SchedState σ) : Prop :=
  PoolInv (pool_ids st.pool ++ queue_ids st.queue) st.pool.nextId

instance (l : List Nat) (n : Nat) : Decidable (PoolInv l n) := by
  unfold PoolInv; infer_instance

instance (st : SchedState σ) : Decidable (SchedInv st) := by
  unfold SchedInv; infer_instance

/-! Helper lemmas. -/

namespace StackPool

theorem alloc_of_concat (p : StackPool) (l : List StackBlock) (b : StackBlock)
    (h : p.stacks' = l ++ [b]) : p.alloc = (b, ⟨l, p.nextId⟩) := by
  unfold alloc
  rw [h, List.getLast?_concat, List.dropLast_concat]

theorem alloc_of_nil (p : StackPool) (h : p.stacks' = []) :
    p.alloc = (⟨p.nextId, fun _ => 0⟩, ⟨[], p.nextId + 1⟩) := by
  unfold alloc
  rw [h]
  rfl

theorem free_stacks (p : StackPool) (b : StackBlock) :
    (p.free b).stacks' = p.stacks' ++ [b] := rfl

end StackPool

theorem pool_ids_free (pool : StackPool) (b : StackBlock) :
    pool_ids (pool.free b) = pool_ids pool ++ [b.id] := by
  simp [pool_ids, StackPool.free]

theorem queue_ids_append (q q' : List (QueuedFiber σ)) :
    queue_ids (q ++ q') = queue_ids q ++ queue_ids q' := by
  simp [queue_ids]

theorem perm_snoc_out (a b : List Nat) (x : Nat) :
    List.Perm (a ++ (b ++ [x])) ((a ++ [x]) ++ b) := by
  have h1 : List.Perm (a ++ (b ++ [x])) (a ++ (x :: b)) :=
    List.Perm.append_left a (List.perm_append_singleton x b)
  have h2 : a ++ (x :: b) = (a ++ [x]) ++ b := by rw [List.append_cons]
  rw [h2] at h1
  exact h1

theorem perm_swap_last (c : List Nat) (u v : Nat) :
    List.Perm ((c ++ [u]) ++ [v]) ((c ++ [v]) ++ [u]) := by
  have h1 : (c ++ [u]) ++ [v] = c ++ [u, v] := by simp
  have h2 : (c ++ [v]) ++ [u] = c ++ [v, u] := by simp
  rw [h1, h2]
  exact List.Perm.append_left c (List.Perm.swap v u [])

theorem PoolInv.perm {l1 l2 : List Nat} {n : Nat} (hp : l1.Perm l2)
    (h : PoolInv l1 n) : PoolInv l2 n :=
  ⟨hp.nodup h.1, fun i hi => h.2 i (hp.mem_iff.mpr hi)⟩

theorem PoolInv.mono {l : List Nat} {n m : Nat} (hnm : n ≤ m)
    (h : PoolInv l n) : PoolInv l m :=
  ⟨h.1, fun i hi => lt_of_lt_of_le (h.2 i hi) hnm⟩

/-- Allocation preserves the ownership ledger: if the ledger of the free
list plus the other owners is sound, then after `alloc` the ledger in
which the returned block has joined the other owners is sound. -/
theorem alloc_inv (pool : StackPool) (rest : List Nat)
    (h : PoolInv (pool_ids pool ++ rest) pool.nextId) :
    PoolInv (pool_ids pool.alloc.2 ++ (rest ++ [pool.alloc.1.id]))
      pool.alloc.2.nextId := by
  rcases List.eq_nil_or_concat' pool.stacks' with hnil | ⟨l, b, hcat⟩
  · have ha := StackPool.alloc_of_nil pool hnil
    rw [ha]
    simp only [pool_ids, hnil, List.map_nil, List.nil_append] at h ⊢
    refine ⟨?_, ?_⟩
    · rw [List.nodup_append]
      refine ⟨h.1, List.nodup_singleton _, ?_⟩
      intro i hi hmem
      have hlt := h.2 i hi
      simp at hmem
      omega
    · intro i hi
      rcases List.mem_append.mp hi with hi | hi
      · exact Nat.lt_succ_of_lt (h.2 i hi)
      · simp at hi; omega
  · have ha := StackPool.alloc_of_concat pool l b hcat
    rw [ha]
    have hp : pool_ids pool ++ rest =
        ((pool_ids (⟨l, pool.nextId⟩ : StackPool)) ++ [b.id]) ++ rest := by
      simp [pool_ids, hcat]
    rw [hp] at h
    exact PoolInv.perm (perm_snoc_out _ rest b.id).symm h

theorem run_fiber_inv (p : FiberProg σ) (stack : StackBlock)
    (q : List (QueuedFiber σ)) (pool : StackPool) (s : σ)
    (h : PoolInv (pool_ids pool ++ (queue_ids q ++ [stack.id])) pool.nextId) :
    PoolInv
      (pool_ids (FiberScheduler.run_fiber p stack q pool s).2.1 ++
        queue_ids (FiberScheduler.run_fiber p stack q pool s).1)
      (FiberScheduler.run_fiber p stack q pool s).2.1.nextId := by
  induction p generalizing q pool s with
  | done =>
    simp only [FiberScheduler.run_fiber, pool_ids_free]
    exact PoolInv.perm (perm_snoc_out _ _ _) h
  | act f k ih => exact ih q pool (f s) h
  | yield k ih =>
    simp only [FiberScheduler.run_fiber, queue_ids_append]
    simpa [queue_ids] using h
  | schedule w k _ihw ihk =>
    simp only [FiberScheduler.run_fiber]
    refine ihk (q ++ [⟨w, pool.alloc.1⟩]) pool.alloc.2 s ?_
    have h2 := alloc_inv pool (queue_ids q ++ [stack.id]) h
    have hq : queue_ids (q ++ [⟨w, pool.alloc.1⟩]) =
        queue_ids q ++ [pool.alloc.1.id] := by
      simp [queue_ids]
    rw [hq]
    exact PoolInv.perm (List.Perm.append_left _ (perm_swap_last _ _ _)) h2

namespace FiberScheduler

theorem schedule_inv (st : SchedState σ) (w : FiberProg σ) (h : SchedInv st) :
    SchedInv (schedule st w) := by
  unfold SchedInv schedule
  have h2 := alloc_inv st.pool (queue_ids st.queue) h
  have hq : queue_ids (st.queue ++ [(⟨w, st.pool.alloc.1⟩ : QueuedFiber σ)]) =
      queue_ids st.queue ++ [st.pool.alloc.1.id] := by
    simp [queue_ids]
  simpa [hq] using h2

theorem run_nil (fuel : Nat) (st : SchedState σ) (h : st.queue = []) :
    run fuel st = some ([], st) := by
  unfold run
  rw [h]

theorem run_cons (fuel : Nat) (st : SchedState σ) (c : QueuedFiber σ)
    (rest : List (QueuedFiber σ)) (h : st.queue = c :: rest) :
    run (fuel + 1) st =
      Option.map (fun p => (c :: p.1, p.2)) (run fuel (run_one st c rest)) := by
  conv_lhs => unfold run
  rw [h]
  cases hr : run fuel (run_one st c rest) <;> simp [hr]

theorem run_queue_nil (fuel : Nat) (st : SchedState σ)
    (tr : List (QueuedFiber σ)) (st' : SchedState σ)
    (h : run fuel st = some (tr, st')) : st'.queue = [] := by
  induction fuel generalizing st tr st' with
  | zero =>
    cases hq : st.queue with
    | nil =>
      rw [run_nil 0 st hq] at h
      cases h
      exact hq
    | cons c rest =>
      unfold run at h
      rw [hq] at h
      cases h
  | succ fuel ih =>
    cases hq : st.queue with
    | nil =>
      rw [run_nil (fuel + 1) st hq] at h
      cases h
      exact hq
    | cons c rest =>
      rw [run_cons fuel st c rest hq] at h
      cases hr : run fuel (run_one st c rest) with
      | none => rw [hr] at h; cases h
      | some p =>
        rw [hr] at h
        cases h
        exact ih (run_one st c rest) p.1 p.2 (by rw [hr])

theorem run_one_inv (st : SchedState σ) (c : QueuedFiber σ)
    (rest : List (QueuedFiber σ)) (h : st.queue = c :: rest) (hinv : SchedInv st) :
    SchedInv (run_one st c rest) := by
  unfold SchedInv at hinv ⊢
  rw [h] at hinv
  have hperm : List.Perm (pool_ids st.pool ++ queue_ids (c :: rest))
      (pool_ids st.pool ++ (queue_ids rest ++ [c.stack.id])) := by
    refine List.Perm.append_left _ ?_
    have : queue_ids (c :: rest) = c.stack.id :: queue_ids rest := rfl
    rw [this]
    exact (List.perm_append_singleton _ _).symm
  exact run_fiber_inv c.prog c.stack rest st.pool st.shared
    (PoolInv.perm hperm hinv)

theorem run_inv (fuel : Nat) (st : SchedState σ) (tr : List (QueuedFiber σ))
    (st' : SchedState σ) (h : run fuel st = some (tr, st'))
    (hinv : SchedInv st) : SchedInv st' := by
  induction fuel generalizing st tr st' with
  | zero =>
    cases hq : st.queue with
    | nil => rw [run_nil 0 st hq] at h; cases h; exact hinv
    | cons c rest => unfold run at h; rw [hq] at h; cases h
  | succ fuel ih =>
    cases hq : st.queue with
    | nil => rw [run_nil (fuel + 1) st hq] at h; cases h; exact hinv
    | cons c rest =>
      rw [run_cons fuel st c rest hq] at h
      cases hr : run fuel (run_one st c rest) with
      | none => rw [hr] at h; cases h
      | some p =>
        rw [hr] at h
        cases h
        exact ih (run_one st c rest) p.1 p.2 (by rw [hr])
          (run_one_inv st c rest hq hinv)

theorem steps_pos (p : FiberProg σ) : 1 ≤ steps p := by
  induction p with
  | done => exact Nat.le_refl 1
  | act f k ih => exact ih
  | yield k ih => unfold steps; omega
  | schedule w k ihw ihk => unfold steps; omega

theorem stepsQ_nil : stepsQ ([] : List (QueuedFiber σ)) = 0 := rfl

theorem actsQ_nil : actsQ ([] : List (QueuedFiber σ)) = 0 := rfl

theorem stepsQ_append (q q' : List (QueuedFiber σ)) :
    stepsQ (q ++ q') = stepsQ q + stepsQ q' := by
  simp [stepsQ]

theorem stepsQ_cons (c : QueuedFiber σ) (q : List (QueuedFiber σ)) :
    stepsQ (c :: q) = steps c.prog + stepsQ q := by
  simp [stepsQ]

theorem actsQ_append (q q' : List (QueuedFiber σ)) :
    actsQ (q ++ q') = actsQ q + actsQ q' := by
  simp [actsQ]

theorem actsQ_cons (c : QueuedFiber σ) (q : List (QueuedFiber σ)) :
    actsQ (c :: q) = acts c.prog + actsQ q := by
  simp [actsQ]

theorem run_fiber_stepsQ (p : FiberProg σ) (stack : StackBlock)
    (q : List (QueuedFiber σ)) (pool : StackPool) (s : σ) :
    stepsQ (run_fiber p stack q pool s).1 + 1 = stepsQ q + steps p := by
  induction p generalizing q pool s with
  | done => simp [run_fiber, steps]
  | act f k ih => simpa [run_fiber, steps] using ih q pool (f s)
  | yield k _ih =>
    simp only [run_fiber, steps, stepsQ_append, stepsQ_cons, stepsQ_nil]
    omega
  | schedule w k _ihw ihk =>
    simp only [run_fiber, steps]
    have h2 := ihk (q ++ [⟨w, pool.alloc.1⟩]) pool.alloc.2 s
    simp only [stepsQ_append, stepsQ_cons, stepsQ_nil] at h2
    omega

theorem run_fiber_acts (p : FiberProg Nat) (hp : OnlyInc p) (stack : StackBlock)
    (q : List (QueuedFiber Nat)) (pool : StackPool) (s : Nat)
    (hq : ∀ c ∈ q, OnlyInc c.prog) :
    (run_fiber p stack q pool s).2.2 + actsQ (run_fiber p stack q pool s).1 =
        s + acts p + actsQ q ∧
      ∀ c ∈ (run_fiber p stack q pool s).1, OnlyInc c.prog := by
  induction hp generalizing q pool s with
  | done => simpa [run_fiber, acts] using hq
  | act hk ih =>
    have := ih q pool (Nat.succ s) hq
    simp only [run_fiber] at this ⊢
    refine ⟨?_, this.2⟩
    rw [this.1]
    simp [acts]
    omega
  | yield hk _ih =>
    refine ⟨?_, ?_⟩
    · simp only [run_fiber, acts, actsQ_append, actsQ_cons, actsQ_nil]
      omega
    · intro c hc
      simp only [run_fiber, List.mem_append, List.mem_singleton] at hc
      rcases hc with hc | hc
      · exact hq c hc
      · subst hc; exact hk
  | schedule hw hk _ihw ihk =>
    rename_i w' k'
    have ih2 := ihk (q ++ [⟨w', pool.alloc.1⟩]) pool.alloc.2 s ?_
    · simp only [run_fiber] at ih2 ⊢
      refine ⟨?_, ih2.2⟩
      rw [ih2.1, actsQ_append, actsQ_cons]
      simp [acts, actsQ]
      omega
    · intro c hc
      simp only [List.mem_append, List.mem_singleton] at hc
      rcases hc with hc | hc
      · exact hq c hc
      · subst hc; exact hw

theorem run_drain (fuel : Nat) (q : List (QueuedFiber Nat)) (pool : StackPool)
    (s : Nat) (hfuel : stepsQ q = fuel) (hq : ∀ c ∈ q, OnlyInc c.prog) :
    ∃ tr pool', run fuel ⟨q, pool, s⟩ = some (tr, ⟨[], pool', s + actsQ q⟩) := by
  induction fuel generalizing q pool s with
  | zero =>
    cases q with
    | nil =>
      refine ⟨[], pool, ?_⟩
      rw [run_nil 0 _ rfl]
      simp [actsQ]
    | cons c rest =>
      rw [stepsQ_cons] at hfuel
      have := steps_pos c.prog
      omega
  | succ fuel ih =>
    cases q with
    | nil => simp [stepsQ] at hfuel
    | cons c rest =>
      have hstep := run_fiber_stepsQ c.prog c.stack rest pool s
      have hacts := run_fiber_acts c.prog (hq c (by simp)) c.stack rest pool s
        (fun d hd => hq d (by simp [hd]))
      rw [stepsQ_cons] at hfuel
      set r := run_fiber c.prog c.stack rest pool s with hr
      have hf2 : stepsQ r.1 = fuel := by omega
      obtain ⟨tr, pool', hrun⟩ := ih r.1 r.2.1 r.2.2 hf2 hacts.2
      have hsh : r.2.2 + actsQ r.1 = s + actsQ (c :: rest) := by
        rw [hacts.1, actsQ_cons]
        omega
      rw [hsh] at hrun
      refine ⟨c :: tr, pool', ?_⟩
      rw [run_cons fuel _ c rest rfl]
      have hone : run_one ⟨c :: rest, pool, s⟩ c rest = ⟨r.1, r.2.1, r.2.2⟩ := rfl
      rw [hone, hrun]
      rfl

theorem schedule_foldl (st : SchedState σ) (ws : List (FiberProg σ)) :
    (ws.foldl schedule st).shared = st.shared ∧
    (ws.foldl schedule st).queue.map QueuedFiber.prog =
      st.queue.map QueuedFiber.prog ++ ws := by
  induction ws generalizing st with
  | nil => simp
  | cons w ws ih =>
    have h := ih (schedule st w)
    simp only [List.foldl_cons]
    refine ⟨h.1.trans rfl, ?_⟩
    rw [h.2]
    simp [schedule]

end FiberScheduler

/-! The claims. -/

/-- C1.  For every sequence of fibers given to the cooperative
scheduler, including fibers that call `schedule` while running, `run`
returns only when the ready queue is empty, and every scheduled body
(every nested-scheduled one included) has executed exactly once by that
point: whenever `run` returns, the final queue is empty; a queue of
increment-instrumented bodies drains in exactly its activation budget
and bumps the counter once per body, nested bodies included; and the
nested chains of depth 1, 2 and 3 of test_recursive leave the counter at
3 after one drain. -/
theorem run_drains_and_executes_each_body_once :
    (∀ (σ : Type) (fuel : Nat) (st : SchedState σ)
        (tr : List (QueuedFiber σ)) (st' : SchedState σ),
        FiberScheduler.run fuel st = some (tr, st') → st'.queue = []) ∧
    (∀ (q : List (QueuedFiber Nat)) (pool : StackPool) (x : Nat),
        (∀ c ∈ q, FiberScheduler.OnlyInc c.prog) →
        ∃ tr pool',
          FiberScheduler.run (FiberScheduler.stepsQ q) ⟨q, pool, x⟩ =
            some (tr, ⟨[], pool', x + FiberScheduler.actsQ q⟩)) ∧
    (FiberScheduler.run 9
        (FiberScheduler.schedule (FiberScheduler.schedule
          (FiberScheduler.schedule (FiberScheduler.init 0) (chain 1))
          (chain 2)) (chain 3))).map
      (fun p => (p.2.shared, p.2.queue.isEmpty)) = some (3, true) :=
  ⟨fun _ fuel st tr st' h => FiberScheduler.run_queue_nil fuel st tr st' h,
   fun q pool x hq => FiberScheduler.run_drain (FiberScheduler.stepsQ q) q pool x rfl hq,
   rfl⟩

theorem run_drains_and_executes_each_body_once_witness :
    (FiberScheduler.init (0 : Nat)).queue = [] ∧
    ∃ tr pool',
      FiberScheduler.run
          (FiberScheduler.stepsQ [(⟨inc_body, ⟨0, fun _ => 0⟩⟩ : QueuedFiber Nat)])
          ⟨[⟨inc_body, ⟨0, fun _ => 0⟩⟩], StackPool.empty, 0⟩ =
        some (tr, ⟨[], pool', 0 + FiberScheduler.actsQ
          [(⟨inc_body, ⟨0, fun _ => 0⟩⟩ : QueuedFiber Nat)]⟩) :=
  ⟨run_drains_and_executes_each_body_once.1 Nat 0 (FiberScheduler.init 0) []
      (FiberScheduler.init 0) rfl,
   run_drains_and_executes_each_body_once.2.1
      [⟨inc_body, ⟨0, fun _ => 0⟩⟩] StackPool.empty 0
      (fun c hc => by
        rw [List.mem_singleton] at hc
        subst hc
        exact FiberScheduler.OnlyInc.act FiberScheduler.OnlyInc.done)⟩

/-- C2.  The cooperative scheduler's `schedule` never invokes the body:
it only claims a stack block, prepares the initial context and appends
it to the back of the ready queue; after any number of `schedule` calls
and before any `run`, the shared state is untouched and the queue holds
exactly the scheduled bodies, in order, behind the prior contents. -/
theorem schedule_is_lazy :
    (∀ (σ : Type) (st : SchedState σ) (w : FiberProg σ),
      FiberScheduler.schedule st w =
        ⟨st.queue ++ [⟨w, st.pool.alloc.1⟩], st.pool.alloc.2, st.shared⟩) ∧
    (∀ (σ : Type) (st : SchedState σ) (ws : List (FiberProg σ)),
      (ws.foldl FiberScheduler.schedule st).shared = st.shared ∧
      (ws.foldl FiberScheduler.schedule st).queue.map QueuedFiber.prog =
        st.queue.map QueuedFiber.prog ++ ws) :=
  ⟨fun _ _ _ => rfl, fun _ st ws => FiberScheduler.schedule_foldl st ws⟩

/-- C3.  The ready queue is strictly FIFO and `yield` appends the
calling fiber's continuation to the back of the queue, so concurrently
live fibers that yield every iteration round-robin in schedule order:
in test_yield_many (3 fibers, 10 iterations each, an increment and a
yield per iteration, recording the last fiber id to run) the drain ends
with counter 30, and the recorded id never repeats on two consecutive
steps (the accumulated `ok` flag of the per-step assertion
`cur_fiber != fiber_id` stays true). -/
theorem fifo_round_robin_yield :
    (∀ (σ : Type) (k : FiberProg σ) (stack : StackBlock)
        (q : List (QueuedFiber σ)) (pool : StackPool) (s : σ),
      FiberScheduler.run_fiber (.yield k) stack q pool s =
        (q ++ [⟨k, stack⟩], pool, s)) ∧
    (FiberScheduler.run 33 yield_many_init).map
        (fun p => (p.2.shared.x, p.2.shared.ok, p.2.queue.isEmpty)) =
      some (30, true, true) :=
  ⟨fun _ _ _ _ _ _ => rfl, rfl⟩

/-- C4 (counterexample).  The claim says the drain free function, too,
fails with a "no scheduler installed" error reported as a recoverable
exception when no instance is installed; in the code
`run_global_scheduler` performs no check and dereferences the empty
`unique_ptr`: the outcome is undefined behaviour, not the thrown
error. -/
theorem run_scheduler_uninitialized_not_thrown :
    run_global_scheduler 0 (none : Option (SchedState Nat)) = CallResult.ub ∧
    (CallResult.ub : CallResult (List (QueuedFiber Nat) × SchedState Nat)) ≠
      CallResult.thrown "Global scheduler is empty" :=
  ⟨rfl, fun h => by cases h⟩

/-- C4 (amended).  The free functions `schedule` and `yield`, invoked
before a global scheduler instance exists, throw the
"Global scheduler is empty" runtime error synchronously to the caller
and touch no state, so the caller may install an instance and retry
successfully; the drain free function `run_global_scheduler` performs no
such check: with no installed instance it dereferences the empty
instance pointer, which is undefined behaviour rather than a reported
error. -/
theorem uninitialized_error_schedule_yield_only :
    (∀ (w : FiberProg Nat),
      global_schedule none w = CallResult.thrown "Global scheduler is empty") ∧
    (global_yield (none : Option (SchedState Nat)) =
      CallResult.thrown "Global scheduler is empty") ∧
    (∀ (w : FiberProg Nat) (s : Nat),
      global_schedule (some (FiberScheduler.init s)) w =
        CallResult.ok (some (FiberScheduler.schedule (FiberScheduler.init s) w))) ∧
    (∀ fuel : Nat,
      run_global_scheduler fuel (none : Option (SchedState Nat)) = CallResult.ub) :=
  ⟨fun _ => rfl, rfl, fun _ _ => rfl, fun _ => rfl⟩

/-- C5.  For a single scheduled fiber that increments a shared counter
and yields on each of its 10 loop iterations before finishing: the
counter is 0 before `run` is called, and exactly 10 after `run`
returns with the queue drained. -/
theorem single_yielding_fiber_counts_to_ten :
    (FiberScheduler.schedule (FiberScheduler.init 0) (yield_one_body 10)).shared
        = 0 ∧
    (FiberScheduler.run 11 (FiberScheduler.schedule (FiberScheduler.init 0)
        (yield_one_body 10))).map (fun p => (p.2.shared, p.2.queue.isEmpty)) =
      some (10, true) :=
  ⟨rfl, rfl⟩

/-- C6.  Every stack block is owned by exactly one party at every
instant and each fiber's stack is returned to the pool exactly once, at
completion: a moved-from FiberKeeper holds no stack and its destruction
returns nothing to the pool; the scheduler's zeroed-out local keeper
likewise releases nothing when `schedule` returns; only the trampoline's
destruction of the on-stack copy frees the stack (exactly one `free`,
at `done`); and single ownership (`SchedInv`: no block is in the free
list and a fiber's hands at once, or in two fibers' hands) is preserved
by `schedule` and by whole drains. -/
theorem stack_single_ownership :
    (∀ (σ : Type) (fk : FiberKeeper σ),
      (FiberKeeper.move fk).2.stack = none ∧
      ∀ pool, FiberKeeper.dtor (FiberKeeper.move fk).2 pool = pool) ∧
    (∀ (σ : Type) (fk : FiberKeeper σ) (pool : StackPool),
      FiberKeeper.dtor (FiberKeeper.memset_zero fk) pool = pool) ∧
    (∀ (σ : Type) (stack : StackBlock) (q : List (QueuedFiber σ))
        (pool : StackPool) (s : σ),
      FiberScheduler.run_fiber .done stack q pool s = (q, pool.free stack, s)) ∧
    (∀ (σ : Type) (st : SchedState σ) (w : FiberProg σ),
      SchedInv st → SchedInv (FiberScheduler.schedule st w)) ∧
    (∀ (σ : Type) (fuel : Nat) (st : SchedState σ)
        (tr : List (QueuedFiber σ)) (st' : SchedState σ),
      SchedInv st → FiberScheduler.run fuel st = some (tr, st') →
        SchedInv st') :=
  ⟨fun _ _ => ⟨rfl, fun _ => rfl⟩,
   fun _ _ _ => rfl,
   fun _ _ _ _ _ => rfl,
   fun _ st w h => FiberScheduler.schedule_inv st w h,
   fun _ fuel st tr st' hinv h => FiberScheduler.run_inv fuel st tr st' h hinv⟩

theorem stack_single_ownership_witness :
    SchedInv (FiberScheduler.schedule (FiberScheduler.init (0 : Nat)) inc_body) ∧
    SchedInv (FiberScheduler.init (0 : Nat)) :=
  ⟨stack_single_ownership.2.2.2.1 Nat (FiberScheduler.init 0) inc_body (by decide),
   stack_single_ownership.2.2.2.2 Nat 0 (FiberScheduler.init 0) []
     (FiberScheduler.init 0) (by decide) rfl⟩

/-- C7.  `StackPool.alloc` returns a block of the fixed 1 MiB size: with
a non-empty free list it returns the most recently freed block,
unchanged (not re-zeroed), removing it from the free list; with an empty
free list it returns a freshly allocated, zero-initialized block;
`StackPool.free` appends the block to the back of the free list. -/
theorem stack_pool_alloc_free_contract :
    STACK_SIZE = 1024 * 1024 ∧
    (∀ (p : StackPool) (l : List StackBlock) (b : StackBlock),
      p.stacks' = l ++ [b] → p.alloc = (b, ⟨l, p.nextId⟩)) ∧
    (∀ p : StackPool, p.stacks' = [] →
      p.alloc.1.id = p.nextId ∧ (∀ o, p.alloc.1.mem o = 0) ∧
        p.alloc.2.stacks' = [] ∧ p.alloc.2.nextId = p.nextId + 1) ∧
    (∀ (p : StackPool) (b : StackBlock),
      (p.free b).stacks' = p.stacks' ++ [b]) :=
  ⟨rfl,
   fun p l b h => StackPool.alloc_of_concat p l b h,
   fun p h => by rw [StackPool.alloc_of_nil p h]; exact ⟨rfl, fun _ => rfl, rfl, rfl⟩,
   fun p b => rfl⟩

theorem stack_pool_alloc_free_contract_witness :
    (⟨[⟨3, fun _ => 0⟩], 5⟩ : StackPool).alloc =
        (⟨3, fun _ => 0⟩, (⟨[], 5⟩ : StackPool)) ∧
    (⟨[], 5⟩ : StackPool).alloc.1.id = 5 :=
  ⟨stack_pool_alloc_free_contract.2.1 ⟨[⟨3, fun _ => 0⟩], 5⟩ [] ⟨3, fun _ => 0⟩
      (by simp),
   (stack_pool_alloc_free_contract.2.2.1 ⟨[], 5⟩ rfl).1⟩

/-- C8.  Round-trip reuse: an `alloc` performed immediately after a
`free b`, with no pool operation in between, returns exactly the block
`b` and restores the pool to its prior state, so 1:1 interleavings of
completions and schedules recycle the just-freed stack and never grow
the pool. -/
theorem alloc_after_free_round_trip (p : StackPool) (b : StackBlock) :
    (p.free b).alloc = (b, p) := by
  have h := StackPool.alloc_of_concat (p.free b) p.stacks' b
    (StackPool.free_stacks p b)
  rw [h]
  rfl

/-- C9.  Draining with an empty ready queue is a no-op: `run` returns
immediately with the state unchanged (queue, pool and shared state
untouched, no error), and in particular a repeat `run_global_scheduler`
after a prior drain, with nothing newly scheduled, returns the drained
state unchanged. -/
theorem empty_drain_noop :
    (∀ (σ : Type) (fuel : Nat) (st : SchedState σ), st.queue = [] →
      FiberScheduler.run fuel st = some ([], st)) ∧
    (∀ (σ : Type) (fuel fuel' : Nat) (st : SchedState σ)
        (tr : List (QueuedFiber σ)) (st' : SchedState σ),
      run_global_scheduler fuel (some st) = CallResult.ok (tr, st') →
      run_global_scheduler fuel' (some st') = CallResult.ok ([], st')) := by
  refine ⟨fun _ fuel st h => FiberScheduler.run_nil fuel st h, ?_⟩
  intro σ fuel fuel' st tr st' h
  have hsome : ∀ (f : Nat) (s0 : SchedState σ),
      run_global_scheduler f (some s0) =
        match FiberScheduler.run f s0 with
        | none => CallResult.spin
        | some p => CallResult.ok p := fun _ _ => rfl
  rw [hsome] at h
  cases hr : FiberScheduler.run fuel st with
  | none => rw [hr] at h; cases h
  | some p =>
    rw [hr] at h
    cases h
    rw [hsome, FiberScheduler.run_nil fuel' st'
      (FiberScheduler.run_queue_nil fuel st tr st' hr)]

theorem empty_drain_noop_witness :
    FiberScheduler.run 7 (FiberScheduler.init (0 : Nat)) =
        some ([], FiberScheduler.init 0) ∧
    run_global_scheduler 4 (some (FiberScheduler.init (0 : Nat))) =
      CallResult.ok ([], FiberScheduler.init 0) :=
  ⟨empty_drain_noop.1 Nat 7 (FiberScheduler.init 0) rfl,
   empty_drain_noop.2 Nat 0 4 (FiberScheduler.init 0) [] (FiberScheduler.init 0)
     rfl⟩

/-- C10.  The cooperative scheduler is deterministic: two `run` calls
from equal initial ready-queue contents, pool and shared state produce
the same result, activation trace and final state included — the
embedding of the run loop is a function of the state, with no other
input. -/
theorem run_deterministic (σ : Type) (fuel : Nat) (st1 st2 : SchedState σ)
    (hq : st1.queue = st2.queue) (hp : st1.pool = st2.pool)
    (hs : st1.shared = st2.shared) :
    FiberScheduler.run fuel st1 = FiberScheduler.run fuel st2 := by
  have h : st1 = st2 := by
    cases st1
    cases st2
    simp_all
  rw [h]

theorem run_deterministic_witness :
    FiberScheduler.run 2 (FiberScheduler.init (0 : Nat)) =
      FiberScheduler.run 2 (FiberScheduler.init (0 : Nat)) :=
  run_deterministic Nat 2 (FiberScheduler.init 0) (FiberScheduler.init 0)
    rfl rfl rfl
